import Mathlib

/-!
A shallow embedding of the Nuru runtime object model (`object/object.go`):
the value variants, textual rendering (`Inspect`), hash-key identity
(`HashKey`), and the stateful iteration protocol (`Next`/`Reset`).

Modelling conventions, fixed once here:
* Go `int64` is modelled as `Int`; where the source converts to `uint64`
  (the two's-complement bit pattern) we take the value modulo `2 ^ 64`.
* Go `uint64` arithmetic (the FNV-1a hash state) is `Nat` with an explicit
  `% 2 ^ 64` after each multiplication.
* Go `string` is a UTF-8 byte sequence; it is modelled as Lean `String`
  together with `strBytes`, the explicit UTF-8 byte list, which is what
  `len`, byte indexing and the hash see.
* `strconv.FormatFloat(v, 'f', -1, 64)` (the rendering of a `float64`
  from its bits) is a Go library routine outside this repository; every
  definition that needs it is parametrised by a function
  `fmtFloat : Nat → String` from the 64-bit pattern to its rendered text,
  so every theorem below holds for the real formatter in particular.
* Go maps (`Dict.Pairs`, and the string-keyed map built inside
  `Dict.Next`) are association lists; the nondeterministic range order of
  a Go map becomes the list order.  `Dict.Next` sorts the rendered keys
  before using them, so the list order only decides which pair survives
  when two rendered keys are equal — exactly the freedom the Go map has.
* Methods that mutate the receiver (`Next`, `Reset`) are state passing:
  they return the result together with the updated object.
-/

/-- The UTF-8 encoding of one character, as its list of bytes. -/
def utf8Bytes (c : Char) : List Nat :=
  let n := c.toNat
  if n < 0x80 then [n]
  else if n < 0x800 then
    [0xC0 ||| (n >>> 6), 0x80 ||| (n &&& 0x3F)]
  else if n < 0x10000 then
    [0xE0 ||| (n >>> 12), 0x80 ||| ((n >>> 6) &&& 0x3F), 0x80 ||| (n &&& 0x3F)]
  else
    [0xF0 ||| (n >>> 18), 0x80 ||| ((n >>> 12) &&& 0x3F),
     0x80 ||| ((n >>> 6) &&& 0x3F), 0x80 ||| (n &&& 0x3F)]

/-- The UTF-8 bytes of a string: what Go's `len`, `s[i]` and `[]byte(s)` see. -/
def strBytes (s : String) : List Nat :=
  (s.data.map utf8Bytes).flatten

/-- FNV-1a offset basis (`hash/fnv`, 64-bit). -/
def fnvOffsetBasis : Nat := 14695981039346656037

/-- FNV-1a prime (`hash/fnv`, 64-bit). -/
def fnvPrime : Nat := 1099511628211

/-- The 64-bit FNV-1a digest of a byte list:
`h.Write(bytes); h.Sum64()` for `h := fnv.New64a()`. -/
def fnv64a (bytes : List Nat) : Nat :=
  bytes.foldl (fun h b => ((h ^^^ b) * fnvPrime) % (2 ^ 64)) fnvOffsetBasis

/-- `fmt.Sprintf("%d", v)` for an `int64`: decimal digits, sign only if
negative — Lean's decimal `Int` representation. -/
def intToString (v : Int) : String := toString v

/-- `strings.Join(l, sep)`. -/
def joinSep (sep : String) : List String → String
  | [] => ""
  | [s] => s
  | s :: rest => s ++ sep ++ joinSep sep rest

/-- `uint64(v)` for an `int64` value `v`: its two's-complement bit
pattern, i.e. `v` modulo `2 ^ 64`. -/
def uint64OfInt (v : Int) : Nat := (v % (2 ^ 64)).toNat

/-- `ObjectType` constant `INTEGER_OBJ`. -/
def INTEGER_OBJ : String := "NAMBA"
/-- `ObjectType` constant `FLOAT_OBJ`. -/
def FLOAT_OBJ : String := "DESIMALI"
/-- `ObjectType` constant `BOOLEAN_OBJ`. -/
def BOOLEAN_OBJ : String := "BOOLEAN"
/-- `ObjectType` constant `NULL_OBJ`. -/
def NULL_OBJ : String := "TUPU"
/-- `ObjectType` constant `RETURN_VALUE_OBJ`. -/
def RETURN_VALUE_OBJ : String := "RUDISHA"
/-- `ObjectType` constant `ERROR_OBJ`. -/
def ERROR_OBJ : String := "KOSA"
/-- `ObjectType` constant `FUNCTION_OBJ`. -/
def FUNCTION_OBJ : String := "UNDO (FUNCTION)"
/-- `ObjectType` constant `STRING_OBJ`. -/
def STRING_OBJ : String := "NENO"
/-- `ObjectType` constant `BUILTIN_OBJ`. -/
def BUILTIN_OBJ : String := "YA_NDANI"
/-- `ObjectType` constant `ARRAY_OBJ`. -/
def ARRAY_OBJ : String := "ORODHA"
/-- `ObjectType` constant `DICT_OBJ`. -/
def DICT_OBJ : String := "KAMUSI"
/-- `ObjectType` constant `CONTINUE_OBJ`. -/
def CONTINUE_OBJ : String := "ENDELEA"
/-- `ObjectType` constant `BREAK_OBJ`. -/
def BREAK_OBJ : String := "VUNJA"

/-- `type HashKey struct { Type ObjectType; Value uint64 }`. -/
structure HashKey where
  type : String
  value : Nat
deriving DecidableEq, Repr

/-- The closed set of runtime value variants of `object.go`.

* `integer`, `float`, `boolean`, `null` carry their payloads (`float`
  carries the 64-bit pattern of its `float64` as a `Nat`).
* `str`, `array`, `dict` carry their payload together with the private
  iteration cursor `offset` (zero-valued on construction in Go).
* `dict` pairs are the entries of `Pairs map[HashKey]DictPair`:
  `(map key, DictPair.Key, DictPair.Value)`.
* `function` carries the parameter renderings (`p.String()` for each
  `*ast.Identifier`) and the body rendering (`Body.String()`); the `ast`
  package is outside this file's source, so these renderings are opaque
  strings, and `Env` (never read by any operation here) is omitted.
* `returnValue`, `error`, `cont`, `brk` are the control/signal variants;
  `builtin` carries no data used by any operation modelled here. -/
inductive Obj where
  | integer (value : Int)
  | float (bits : Nat)
  | boolean (value : Bool)
  | null
  | str (value : String) (offset : Nat)
  | array (elements : List Obj) (offset : Nat)
  | dict (pairs : List (HashKey × Obj × Obj)) (offset : Nat)
  | function (parameters : List String) (body : String)
  | builtin
  | returnValue (value : Obj)
  | error (message : String)
  | cont
  | brk

/-- `Type()` of each variant. -/
def Obj.typeOf : Obj → String
  | .integer _ => INTEGER_OBJ
  | .float _ => FLOAT_OBJ
  | .boolean _ => BOOLEAN_OBJ
  | .null => NULL_OBJ
  | .str _ _ => STRING_OBJ
  | .array _ _ => ARRAY_OBJ
  | .dict _ _ => DICT_OBJ
  | .function _ _ => FUNCTION_OBJ
  | .builtin => BUILTIN_OBJ
  | .returnValue _ => RETURN_VALUE_OBJ
  | .error _ => ERROR_OBJ
  | .cont => CONTINUE_OBJ
  | .brk => BREAK_OBJ

mutual

/-- `Inspect()` of each variant (`fmtFloat` models
`strconv.FormatFloat(·, 'f', -1, 64)` on the float's bit pattern):
* Integer: `fmt.Sprintf("%d", value)`;
* Boolean: `"kweli"` / `"sikweli"`; Null: `"null"`;
* String: the value itself;
* Array: `"[" + strings.Join(renderings, ", ") + "]"`;
* Dict: `"\x7b" + strings.Join(pair renderings, ", ") + "\x7d"`;
* Function: `"unda(" + strings.Join(params, ", ") + ") \x7b\n" + body + "\n\x7d"`;
* Builtin: `"builtin function"`; ReturnValue: the wrapped value's rendering;
* Error: the colorized label followed by the message;
* Continue/Break: `"continue"` / `"break"`. -/
def Obj.inspect (fmtFloat : Nat → String) : Obj → String
  | .integer v => intToString v
  | .float bits => fmtFloat bits
  | .boolean b => if b then "kweli" else "sikweli"
  | .null => "null"
  | .str v _ => v
  | .array elems _ => "[" ++ joinSep ", " (inspectList fmtFloat elems) ++ "]"
  | .dict pairs _ => "\x7b" ++ joinSep ", " (inspectPairs fmtFloat pairs) ++ "\x7d"
  | .function ps body => "unda(" ++ joinSep ", " ps ++ ") \x7b\n" ++ body ++ "\n\x7d"
  | .builtin => "builtin function"
  | .returnValue v => Obj.inspect fmtFloat v
  | .error msg => "\x1b[31mKosa: \x1b[0m" ++ msg
  | .cont => "continue"
  | .brk => "break"

/-- The element renderings collected by `Array.Inspect`'s loop. -/
def inspectList (fmtFloat : Nat → String) : List Obj → List String
  | [] => []
  | o :: rest => Obj.inspect fmtFloat o :: inspectList fmtFloat rest

/-- The `fmt.Sprintf("%s: %s", pair.Key.Inspect(), pair.Value.Inspect())`
strings collected by `Dict.Inspect`'s loop. -/
def inspectPairs (fmtFloat : Nat → String) : List (HashKey × Obj × Obj) → List String
  | [] => []
  | (_, k, v) :: rest =>
    (Obj.inspect fmtFloat k ++ ": " ++ Obj.inspect fmtFloat v) :: inspectPairs fmtFloat rest

end

/-- `Integer.HashKey()`: the kind tag and the value's `uint64` bit pattern. -/
def integerHashKey (v : Int) : HashKey :=
  ⟨INTEGER_OBJ, uint64OfInt v⟩

/-- `Float.HashKey()`: the kind tag and the FNV-1a digest of the bytes of
the float's rendered text `f.Inspect()`. -/
def floatHashKey (fmtFloat : Nat → String) (bits : Nat) : HashKey :=
  ⟨FLOAT_OBJ, fnv64a (strBytes (fmtFloat bits))⟩

/-- `Boolean.HashKey()`: digest 1 for true, 0 for false. -/
def booleanHashKey (b : Bool) : HashKey :=
  ⟨BOOLEAN_OBJ, if b then 1 else 0⟩

/-- `String.HashKey()`: the kind tag and the FNV-1a digest of the value's bytes. -/
def stringHashKey (v : String) : HashKey :=
  ⟨STRING_OBJ, fnv64a (strBytes v)⟩

/-- The `Hashable` capability: `HashKey()` where the variant implements it,
`none` where the type assertion to `Hashable` fails. -/
def Obj.hashKey (fmtFloat : Nat → String) : Obj → Option HashKey
  | .integer v => some (integerHashKey v)
  | .float bits => some (floatHashKey fmtFloat bits)
  | .boolean b => some (booleanHashKey b)
  | .str v _ => some (stringHashKey v)
  | _ => none

/-- Lookup in `Pairs map[HashKey]DictPair` (how the evaluator retrieves a
Dict entry by its key's `HashKey()`), as association-list lookup. -/
def dictGet (pairs : List (HashKey × Obj × Obj)) (k : HashKey) : Option (Obj × Obj) :=
  match pairs with
  | [] => none
  | (k', key, val) :: rest => if k' = k then some (key, val) else dictGet rest k

/-- Lexicographic order on character lists by code point — Go's `<` on
strings (bytewise lexicographic on UTF-8, which coincides with code-point
lexicographic order). -/
def charListLt : List Char → List Char → Bool
  | [], [] => false
  | [], _ :: _ => true
  | _ :: _, [] => false
  | a :: as, b :: bs => if a < b then true else if b < a then false else charListLt as bs

/-- Go's `<` on strings. -/
def strLtB (a b : String) : Bool := charListLt a.data b.data

/-- Insert into a list sorted ascending by the strict comparison `lt`. -/
def insertBy {α : Type} (lt : α → α → Bool) (x : α) : List α → List α
  | [] => [x]
  | t :: ts => if lt x t then x :: t :: ts else t :: insertBy lt x ts

/-- Insertion sort by the strict comparison `lt`.  `sortBy strLtB` models
`sort.Strings`: Go's sort is unstable, and an unstable sort's output is
unique up to the placement of equal elements, which insertion sort fixes
one way. -/
def sortBy {α : Type} (lt : α → α → Bool) (l : List α) : List α :=
  l.foldr (insertBy lt) []

/-- `dict[k] = v` for the `map[string]DictPair` built inside `Dict.Next`:
association-list insert where a later write overwrites an earlier one. -/
def mapInsert (k : String) (v : Obj × Obj) : List (String × (Obj × Obj)) → List (String × (Obj × Obj))
  | [] => [(k, v)]
  | (k', v') :: rest => if k' = k then (k, v) :: rest else (k', v') :: mapInsert k v rest

/-- `dict[k]` for the `map[string]DictPair` built inside `Dict.Next`
(`none` is Go's zero `DictPair`, whose `Key`/`Value` are nil). -/
def mapLookup (k : String) : List (String × (Obj × Obj)) → Option (Obj × Obj)
  | [] => none
  | (k', v') :: rest => if k' = k then some v' else mapLookup k rest

/-- The rendered text of a stored pair's key — `v.Key.Inspect()`. -/
def renderKey (fmtFloat : Nat → String) (e : HashKey × Obj × Obj) : String :=
  Obj.inspect fmtFloat e.2.1

/-- The `map[string]DictPair` built by `Dict.Next`'s first loop:
`dict[v.Key.Inspect()] = v` over all stored pairs. -/
def buildTextMap (fmtFloat : Nat → String) (pairs : List (HashKey × Obj × Obj)) :
    List (String × (Obj × Obj)) :=
  pairs.foldl (fun m e => mapInsert (renderKey fmtFloat e) (e.2.1, e.2.2) m) []

/-- The `keys` slice of `Dict.Next` after `sort.Strings(keys)`: all
rendered key texts, sorted ascending. -/
def sortedKeys (fmtFloat : Nat → String) (pairs : List (HashKey × Obj × Obj)) : List String :=
  sortBy strLtB (pairs.map (renderKey fmtFloat))

/-- The stored pairs sorted ascending by rendered key text (used to state
what `Dict.Next`'s per-call recomputation observably yields). -/
def sortPairs (fmtFloat : Nat → String) (pairs : List (HashKey × Obj × Obj)) :
    List (HashKey × Obj × Obj) :=
  sortBy (fun p q => strLtB (renderKey fmtFloat p) (renderKey fmtFloat q)) pairs

/-- `Dict.Next()`: rebuild the text-keyed map and the sorted key list,
walk the sorted keys to position `offset`; if one exists there, advance
the cursor and return that map entry, else return (nil, nil) leaving the
cursor alone.  Result: ((key, value), new cursor). -/
def dictNext (fmtFloat : Nat → String) (pairs : List (HashKey × Obj × Obj)) (off : Nat) :
    (Option Obj × Option Obj) × Nat :=
  match (sortedKeys fmtFloat pairs).get? off with
  | some k =>
    match mapLookup k (buildTextMap fmtFloat pairs) with
    | some kv => ((some kv.1, some kv.2), off + 1)
    | none => ((none, none), off + 1)
  | none => ((none, none), off)

/-- `Next()` on each iterable variant, state passing: the (key, value)
result — `(none, none)` is Go's `(nil, nil)` — together with the updated
object.

* String: if the cursor is inside the byte length, yield the byte offset
  and the one-character string of that byte (`string(s.Value[offset])`)
  and advance; else (nil, nil).
* Array: if the cursor is inside the element count, yield the index and
  the element and advance; else (nil, nil).
* Dict: `dictNext`.
* Non-iterable variants have no `Next`; the type assertion to `Iterable`
  fails, modelled as (nil, nil) with the object unchanged. -/
def Obj.next (fmtFloat : Nat → String) : Obj → (Option Obj × Option Obj) × Obj
  | .str v off =>
    if off < (strBytes v).length then
      ((some (.integer off),
        some (.str (String.singleton (Char.ofNat ((strBytes v).getD off 0))) 0)),
       .str v (off + 1))
    else ((none, none), .str v off)
  | .array elems off =>
    if off < elems.length then
      ((some (.integer off), some (elems.getD off .null)), .array elems (off + 1))
    else ((none, none), .array elems off)
  | .dict pairs off =>
    ((dictNext fmtFloat pairs off).1, .dict pairs (dictNext fmtFloat pairs off).2)
  | o => ((none, none), o)

/-- `Reset()` on each iterable variant: cursor back to 0. -/
def Obj.reset : Obj → Obj
  | .str v _ => .str v 0
  | .array elems _ => .array elems 0
  | .dict pairs _ => .dict pairs 0
  | o => o

/-- `n` successive `Next()` calls: the list of results in order, and the
final state of the object. -/
def iterTrace (fmtFloat : Nat → String) : Nat → Obj → List (Option Obj × Option Obj) × Obj
  | 0, o => ([], o)
  | m + 1, o =>
    ((Obj.next fmtFloat o).1 :: (iterTrace fmtFloat m (Obj.next fmtFloat o).2).1,
     (iterTrace fmtFloat m (Obj.next fmtFloat o).2).2)

/-- One step of an arbitrary interleaving of `Next()` and `Reset()` calls. -/
inductive IterOp where
  | nextOp
  | resetOp

/-- Run a sequence of `Next()`/`Reset()` calls, keeping only the state. -/
def runOps (fmtFloat : Nat → String) : List IterOp → Obj → Obj
  | [], o => o
  | .nextOp :: rest, o => runOps fmtFloat rest (Obj.next fmtFloat o).2
  | .resetOp :: rest, o => runOps fmtFloat rest (Obj.reset o)

/-- The IEEE-754 binary64 bit pattern of `1.0`. -/
def float1Bits : Nat := 4607182418800017408

/-- A concrete float formatter agreeing with Go's
`strconv.FormatFloat(·, 'f', -1, 64)` on the bit patterns used in the
concrete instances below: the bits of `1.0` render as `"1"`, and the
quiet-NaN patterns used render as `"NaN"`. -/
def fmtFloatC : Nat → String :=
  fun bits => if bits = float1Bits then "1" else "NaN"

theorem inspectList_eq_map (fmtFloat : Nat → String) (l : List Obj) :
    inspectList fmtFloat l = l.map (Obj.inspect fmtFloat) := by
  induction l with
  | nil => rfl
  | cons o rest ih => simp [inspectList, ih]

theorem inspectPairs_eq_map (fmtFloat : Nat → String) (l : List (HashKey × Obj × Obj)) :
    inspectPairs fmtFloat l
      = l.map (fun e => Obj.inspect fmtFloat e.2.1 ++ ": " ++ Obj.inspect fmtFloat e.2.2) := by
  induction l with
  | nil => rfl
  | cons e rest ih =>
    obtain ⟨hk, k, v⟩ := e
    simp [inspectPairs, ih]

/-- C7: `Render()` of an empty Array is exactly `"[]"`, and for every
Array the output is `"["`, the elements' renderings joined by `", "` in
storage order, then `"]"`; in particular the Array `[1, 2]` renders as
`"[1, 2]"`. -/
theorem array_rendering (fmtFloat : Nat → String) (elems : List Obj) (k : Nat) :
    Obj.inspect fmtFloat (.array [] k) = "[]"
    ∧ Obj.inspect fmtFloat (.array elems k)
        = "[" ++ joinSep ", " (elems.map (Obj.inspect fmtFloat)) ++ "]"
    ∧ Obj.inspect fmtFloat (.array [.integer 1, .integer 2] 0) = "[1, 2]" := by
  refine ⟨rfl, ?_, rfl⟩
  simp [Obj.inspect, inspectList_eq_map]

/-- C6: `Render()` of an empty Dict is exactly `"{}"` (braces), and for
every Dict the output is an opening brace, the stored pairs each rendered
exactly once as `"key: value"` and joined by `", "` (here in storage
order — one of the permutations the unordered Go map range can produce),
then a closing brace. -/
theorem dict_rendering (fmtFloat : Nat → String) (pairs : List (HashKey × Obj × Obj)) (k : Nat) :
    Obj.inspect fmtFloat (.dict [] k) = "\x7b\x7d"
    ∧ Obj.inspect fmtFloat (.dict pairs k)
        = "\x7b" ++ joinSep ", "
            (pairs.map (fun e => Obj.inspect fmtFloat e.2.1 ++ ": " ++ Obj.inspect fmtFloat e.2.2))
          ++ "\x7d" := by
  refine ⟨rfl, ?_⟩
  simp [Obj.inspect, inspectPairs_eq_map]

/-- C8: every Function renders as `"unda("`, the parameter names joined
by `", "`, `") {"`, a newline, the body's rendering, a newline, `"}"`;
in particular parameters `[x, y]` with body rendering `rudisha x + y;`
render as `unda(x, y) {\nrudisha x + y;\n}`. -/
theorem function_rendering (fmtFloat : Nat → String) (ps : List String) (body : String) :
    Obj.inspect fmtFloat (.function ps body)
      = "unda(" ++ joinSep ", " ps ++ ") \x7b\n" ++ body ++ "\n\x7d"
    ∧ Obj.inspect fmtFloat (.function ["x", "y"] "rudisha x + y;")
      = "unda(x, y) \x7b\nrudisha x + y;\n\x7d" :=
  ⟨rfl, rfl⟩

/-- A call of `Inspect()` on a receiver, in the same state-passing style
as `Next`/`Reset`: the Go `Inspect` bodies read fields and assign none,
so the call returns the rendering together with the receiver exactly as
it was. -/
def Obj.inspectCall (fmtFloat : Nat → String) (o : Obj) : String × Obj :=
  (Obj.inspect fmtFloat o, o)

/-- C9: `Render()` is pure and total: on every value (including empty
Array, empty Dict and zero-length String, shown explicitly) it returns a
string and leaves the value — iteration cursor included — unchanged, so
a second call on the resulting state returns the same string. -/
theorem render_pure_total (fmtFloat : Nat → String) (o : Obj) (k : Nat) :
    (Obj.inspectCall fmtFloat o).2 = o
    ∧ (Obj.inspectCall fmtFloat ((Obj.inspectCall fmtFloat o).2)).1
        = (Obj.inspectCall fmtFloat o).1
    ∧ (Obj.inspectCall fmtFloat (.array [] k)).1 = "[]"
    ∧ (Obj.inspectCall fmtFloat (.dict [] k)).1 = "\x7b\x7d"
    ∧ (Obj.inspectCall fmtFloat (.str "" k)).1 = "" :=
  ⟨rfl, rfl, rfl, rfl, rfl⟩

/-- C4: Float hashing is computed from the rendered decimal text: two
Float values whose renderings are the same string get the same HashKey,
whatever their bit patterns. -/
theorem float_hash_from_rendered_text (fmtFloat : Nat → String) (b1 b2 : Nat)
    (h : Obj.inspect fmtFloat (.float b1) = Obj.inspect fmtFloat (.float b2)) :
    floatHashKey fmtFloat b1 = floatHashKey fmtFloat b2 := by
  have hf : fmtFloat b1 = fmtFloat b2 := h
  simp [floatHashKey, hf]

theorem float_hash_from_rendered_text_witness :
    (9221120237041090560 : Nat) ≠ 9221120237041090561
    ∧ Obj.inspect fmtFloatC (.float 9221120237041090560)
        = Obj.inspect fmtFloatC (.float 9221120237041090561)
    ∧ floatHashKey fmtFloatC 9221120237041090560
        = floatHashKey fmtFloatC 9221120237041090561 :=
  ⟨by decide, rfl, float_hash_from_rendered_text fmtFloatC 9221120237041090560 9221120237041090561 rfl⟩

theorem hashKey_type_eq (fmtFloat : Nat → String) (o : Obj) (k : HashKey)
    (h : Obj.hashKey fmtFloat o = some k) : k.type = Obj.typeOf o := by
  cases o <;> simp [Obj.hashKey] at h <;>
    simp [← h, integerHashKey, floatHashKey, booleanHashKey, stringHashKey, Obj.typeOf]

/-- C2: HashKeys of different kinds never collide — whenever two values
both support `HashKey()` and their `Type()`s differ, the HashKeys differ;
in particular Integer `1` and Float `1.0` have distinct HashKeys, and a
Dict storing both keys retrieves each pair independently. -/
theorem hashkey_kind_separation (fmtFloat : Nat → String) :
    (∀ a b ka kb, Obj.hashKey fmtFloat a = some ka → Obj.hashKey fmtFloat b = some kb →
       Obj.typeOf a ≠ Obj.typeOf b → ka ≠ kb)
    ∧ (∀ bits, integerHashKey 1 ≠ floatHashKey fmtFloat bits)
    ∧ ∀ va vb,
        dictGet [(integerHashKey 1, .integer 1, va),
                 (floatHashKey fmtFloat float1Bits, .float float1Bits, vb)]
          (integerHashKey 1) = some (.integer 1, va)
        ∧ dictGet [(integerHashKey 1, .integer 1, va),
                   (floatHashKey fmtFloat float1Bits, .float float1Bits, vb)]
            (floatHashKey fmtFloat float1Bits) = some (.float float1Bits, vb) := by
  have hne : ∀ bits, integerHashKey 1 ≠ floatHashKey fmtFloat bits := by
    intro bits h
    have := congrArg HashKey.type h
    simp [integerHashKey, floatHashKey, INTEGER_OBJ, FLOAT_OBJ] at this
  refine ⟨?_, hne, ?_⟩
  · intro a b ka kb ha hb hty heq
    exact hty ((hashKey_type_eq fmtFloat a ka ha).symm.trans
      (heq ▸ hashKey_type_eq fmtFloat b kb hb))
  · intro va vb
    constructor
    · simp [dictGet]
    · simp [dictGet, hne float1Bits]

theorem hashkey_kind_separation_witness :
    integerHashKey 0 ≠ booleanHashKey false :=
  (hashkey_kind_separation (fun _ => "")).1 (.integer 0) (.boolean false)
    (integerHashKey 0) (booleanHashKey false) rfl rfl (by decide)

/-- C3: for Integer values in the `int64` range, two values are equal iff
their HashKeys are equal: the Integer digest is the value's 64-bit
pattern, injective on the `int64` range. -/
theorem integer_hashkey_injective (fmtFloat : Nat → String) (a b : Int)
    (ha : -(2 ^ 63) ≤ a ∧ a < 2 ^ 63) (hb : -(2 ^ 63) ≤ b ∧ b < 2 ^ 63) :
    a = b ↔ Obj.hashKey fmtFloat (.integer a) = Obj.hashKey fmtFloat (.integer b) := by
  constructor
  · intro h
    subst h
    rfl
  · intro h
    have h1 : uint64OfInt a = uint64OfInt b := by
      simpa [Obj.hashKey, integerHashKey] using h
    have hna : (0 : Int) ≤ a % (2 ^ 64) := Int.emod_nonneg a (by norm_num)
    have hnb : (0 : Int) ≤ b % (2 ^ 64) := Int.emod_nonneg b (by norm_num)
    have h2 : a % (2 ^ 64) = b % (2 ^ 64) := by
      unfold uint64OfInt at h1
      omega
    obtain ⟨k, hk⟩ := Int.ModEq.dvd (h2 : Int.ModEq (2 ^ 64) a b)
    have e63 : (2 : Int) ^ 63 = 9223372036854775808 := by norm_num
    have e64 : (2 : Int) ^ 64 = 18446744073709551616 := by norm_num
    rw [e63] at ha hb
    rw [e64] at hk
    omega

theorem integer_hashkey_injective_witness :
    (-(2 ^ 63) ≤ (5 : Int) ∧ (5 : Int) < 2 ^ 63)
    ∧ ((5 : Int) = 5 ↔ Obj.hashKey (fun _ => "") (.integer 5)
        = Obj.hashKey (fun _ => "") (.integer 5)) :=
  ⟨by decide, integer_hashkey_injective (fun _ => "") 5 5 (by decide) (by decide)⟩

theorem charListLt_irrefl (l : List Char) : charListLt l l = false := by
  induction l with
  | nil => rfl
  | cons c cs ih => simp [charListLt, ih]

theorem charListLt_trans {a b c : List Char} (hab : charListLt a b = true)
    (hbc : charListLt b c = true) : charListLt a c = true := by
  induction a generalizing b c with
  | nil =>
    cases b with
    | nil => simp [charListLt] at hab
    | cons y ys =>
      cases c with
      | nil => simp [charListLt] at hbc
      | cons z zs => rfl
  | cons x xs ih =>
    cases b with
    | nil => simp [charListLt] at hab
    | cons y ys =>
      cases c with
      | nil => simp [charListLt] at hbc
      | cons z zs =>
        rcases lt_trichotomy x y with hxy | hxy | hxy
        · rcases lt_trichotomy y z with hyz | hyz | hyz
          · simp [charListLt, lt_trans hxy hyz]
          · subst hyz
            simp [charListLt, hxy]
          · simp [charListLt, hyz, not_lt.mpr (le_of_lt hyz)] at hbc
        · subst hxy
          simp only [charListLt, lt_irrefl, if_false] at hab
          rcases lt_trichotomy x z with hxz | hxz | hxz
          · simp [charListLt, hxz]
          · subst hxz
            simp only [charListLt, lt_irrefl, if_false] at hbc ⊢
            exact ih hab hbc
          · simp [charListLt, hxz, not_lt.mpr (le_of_lt hxz)] at hbc
        · simp [charListLt, hxy, not_lt.mpr (le_of_lt hxy)] at hab

theorem charListLt_conn {a b : List Char} (hab : charListLt a b = false)
    (hba : charListLt b a = false) : a = b := by
  induction a generalizing b with
  | nil =>
    cases b with
    | nil => rfl
    | cons y ys => simp [charListLt] at hab
  | cons x xs ih =>
    cases b with
    | nil => simp [charListLt] at hba
    | cons y ys =>
      rcases lt_trichotomy x y with h | h | h
      · simp [charListLt, h] at hab
      · subst h
        simp only [charListLt, lt_irrefl, if_false] at hab hba
        rw [ih hab hba]
      · simp [charListLt, h] at hba

theorem strLtB_irrefl (s : String) : strLtB s s = false :=
  charListLt_irrefl s.data

theorem strLtB_trans {a b c : String} (hab : strLtB a b = true)
    (hbc : strLtB b c = true) : strLtB a c = true :=
  charListLt_trans hab hbc

theorem strLtB_conn {a b : String} (hab : strLtB a b = false)
    (hba : strLtB b a = false) : a = b := by
  cases a with
  | mk da =>
    cases b with
    | mk db => exact congrArg String.mk (charListLt_conn hab hba)

theorem insertBy_perm {α : Type} (lt : α → α → Bool) (x : α) (l : List α) :
    (insertBy lt x l).Perm (x :: l) := by
  induction l with
  | nil => exact List.Perm.refl _
  | cons t ts ih =>
    cases h : lt x t with
    | true => simp [insertBy, h]
    | false =>
      simp only [insertBy, h, Bool.false_eq_true, if_false]
      exact (ih.cons t).trans (List.Perm.swap x t ts)

theorem sortBy_perm {α : Type} (lt : α → α → Bool) (l : List α) :
    (sortBy lt l).Perm l := by
  induction l with
  | nil => exact List.Perm.refl _
  | cons x xs ih =>
    exact (insertBy_perm lt x (sortBy lt xs)).trans (ih.cons x)

theorem insertBy_pairwise {α : Type} (lt : α → α → Bool)
    (htr : ∀ a b c : α, lt a b = true → lt b c = true → lt a c = true)
    (hirr : ∀ a : α, lt a a = false) (x : α) (l : List α)
    (hl : l.Pairwise (fun a b => lt b a = false)) :
    (insertBy lt x l).Pairwise (fun a b => lt b a = false) := by
  induction l with
  | nil => simp [insertBy]
  | cons t ts ih =>
    rcases List.pairwise_cons.mp hl with ⟨ht, hts⟩
    cases hx : lt x t with
    | true =>
      simp only [insertBy, hx, if_true]
      refine List.pairwise_cons.mpr ⟨?_, hl⟩
      intro u hu
      rcases List.mem_cons.mp hu with rfl | hu
      · cases hc : lt u x with
        | false => rfl
        | true => exact absurd (htr x u x hx hc) (by simp [hirr])
      · cases hc : lt u x with
        | false => rfl
        | true => exact absurd (htr u x t hc hx) (by simp [ht u hu])
    | false =>
      simp only [insertBy, hx, Bool.false_eq_true, if_false]
      refine List.pairwise_cons.mpr ⟨?_, ih hts⟩
      intro u hu
      rcases List.mem_cons.mp ((insertBy_perm lt x ts).mem_iff.mp hu) with rfl | hu
      · exact hx
      · exact ht u hu

theorem sortBy_pairwise {α : Type} (lt : α → α → Bool)
    (htr : ∀ a b c : α, lt a b = true → lt b c = true → lt a c = true)
    (hirr : ∀ a : α, lt a a = false) (l : List α) :
    (sortBy lt l).Pairwise (fun a b => lt b a = false) := by
  induction l with
  | nil => simp [sortBy]
  | cons x xs ih => exact insertBy_pairwise lt htr hirr x (sortBy lt xs) ih

theorem insertBy_map {α β : Type} (f : α → β) (ltb : β → β → Bool) (x : α) (l : List α) :
    insertBy ltb (f x) (l.map f) = (insertBy (fun a b => ltb (f a) (f b)) x l).map f := by
  induction l with
  | nil => rfl
  | cons t ts ih =>
    simp only [List.map, insertBy]
    by_cases h : ltb (f x) (f t) = true
    · simp [h]
    · simp [h, ih]

theorem sortBy_map {α β : Type} (f : α → β) (ltb : β → β → Bool) (l : List α) :
    sortBy ltb (l.map f) = (sortBy (fun a b => ltb (f a) (f b)) l).map f := by
  induction l with
  | nil => rfl
  | cons x xs ih =>
    show insertBy ltb (f x) (sortBy ltb (xs.map f)) = _
    rw [ih, insertBy_map]
    rfl

theorem mapLookup_insert_self (k : String) (v : Obj × Obj) (m : List (String × (Obj × Obj))) :
    mapLookup k (mapInsert k v m) = some v := by
  induction m with
  | nil => simp [mapInsert, mapLookup]
  | cons e rest ih =>
    obtain ⟨k', v'⟩ := e
    by_cases h : k' = k
    · simp [mapInsert, mapLookup, h]
    · simp [mapInsert, mapLookup, h, ih]

theorem mapLookup_insert_other (k kq : String) (v : Obj × Obj)
    (m : List (String × (Obj × Obj))) (h : k ≠ kq) :
    mapLookup kq (mapInsert k v m) = mapLookup kq m := by
  induction m with
  | nil => simp [mapInsert, mapLookup, h]
  | cons e rest ih =>
    obtain ⟨k', v'⟩ := e
    by_cases h' : k' = k
    · subst h'
      simp [mapInsert, mapLookup, h]
    · by_cases h'' : k' = kq
      · subst h''
        simp [mapInsert, mapLookup, h', Ne.symm h]
      · simp [mapInsert, mapLookup, h', h'', ih]

theorem mapLookup_foldl_absent (fmtFloat : Nat → String) (ps : List (HashKey × Obj × Obj))
    (kq : String) (h : ∀ e ∈ ps, renderKey fmtFloat e ≠ kq) (m : List (String × (Obj × Obj))) :
    mapLookup kq (ps.foldl (fun m e => mapInsert (renderKey fmtFloat e) (e.2.1, e.2.2) m) m)
      = mapLookup kq m := by
  induction ps generalizing m with
  | nil => rfl
  | cons p ps ih =>
    simp only [List.foldl]
    rw [ih (fun e he => h e (List.mem_cons_of_mem p he)) _,
        mapLookup_insert_other _ _ _ _ (h p (List.mem_cons_self p ps))]

theorem mapLookup_foldl_insert (fmtFloat : Nat → String) (ps : List (HashKey × Obj × Obj))
    (e : HashKey × Obj × Obj) (he : e ∈ ps) (hnd : (ps.map (renderKey fmtFloat)).Nodup)
    (m : List (String × (Obj × Obj))) :
    mapLookup (renderKey fmtFloat e)
      (ps.foldl (fun m e => mapInsert (renderKey fmtFloat e) (e.2.1, e.2.2) m) m)
      = some (e.2.1, e.2.2) := by
  induction ps generalizing m with
  | nil => exact absurd he (List.not_mem_nil e)
  | cons p ps ih =>
    simp only [List.map, List.nodup_cons] at hnd
    obtain ⟨hp, hps⟩ := hnd
    rcases List.mem_cons.mp he with rfl | he'
    · simp only [List.foldl]
      rw [mapLookup_foldl_absent fmtFloat ps (renderKey fmtFloat e)
            (fun q hq hq' => hp (hq' ▸ List.mem_map_of_mem (renderKey fmtFloat) hq)) _,
          mapLookup_insert_self]
    · simp only [List.foldl]
      exact ih he' hps _

theorem mapLookup_buildTextMap (fmtFloat : Nat → String) (pairs : List (HashKey × Obj × Obj))
    (e : HashKey × Obj × Obj) (he : e ∈ pairs) (hnd : (pairs.map (renderKey fmtFloat)).Nodup) :
    mapLookup (renderKey fmtFloat e) (buildTextMap fmtFloat pairs) = some (e.2.1, e.2.2) :=
  mapLookup_foldl_insert fmtFloat pairs e he hnd []

theorem sortedKeys_eq (fmtFloat : Nat → String) (pairs : List (HashKey × Obj × Obj)) :
    sortedKeys fmtFloat pairs = (sortPairs fmtFloat pairs).map (renderKey fmtFloat) := by
  unfold sortedKeys sortPairs
  exact sortBy_map (renderKey fmtFloat) strLtB pairs

theorem sortPairs_length (fmtFloat : Nat → String) (pairs : List (HashKey × Obj × Obj)) :
    (sortPairs fmtFloat pairs).length = pairs.length :=
  (sortBy_perm _ pairs).length_eq

theorem dict_next_of_get (fmtFloat : Nat → String) (pairs : List (HashKey × Obj × Obj))
    (off : Nat) (e : HashKey × Obj × Obj)
    (hnd : (pairs.map (renderKey fmtFloat)).Nodup)
    (hget : (sortPairs fmtFloat pairs).get? off = some e) :
    Obj.next fmtFloat (.dict pairs off) = ((some e.2.1, some e.2.2), .dict pairs (off + 1)) := by
  have hkeys : (sortedKeys fmtFloat pairs).get? off = some (renderKey fmtFloat e) := by
    rw [sortedKeys_eq, List.get?_map, hget]
    rfl
  have hmem : e ∈ pairs := (sortBy_perm _ pairs).mem_iff.mp (List.get?_mem hget)
  have hlook := mapLookup_buildTextMap fmtFloat pairs e hmem hnd
  simp only [Obj.next, dictNext, hkeys, hlook]

theorem dict_next_exhausted (fmtFloat : Nat → String) (pairs : List (HashKey × Obj × Obj))
    (off : Nat) (h : pairs.length ≤ off) :
    Obj.next fmtFloat (.dict pairs off) = ((none, none), .dict pairs off) := by
  have hlen : (sortedKeys fmtFloat pairs).length = pairs.length := by
    rw [sortedKeys_eq, List.length_map, sortPairs_length]
  have hnone : (sortedKeys fmtFloat pairs).get? off = none := by
    rw [List.get?_eq_none]
    omega
  simp only [Obj.next, dictNext, hnone]

theorem drop_cons_of_get? {α : Type} : ∀ (l : List α) (n : Nat) (e : α),
    l.get? n = some e → l.drop n = e :: l.drop (n + 1)
  | [], n, e, h => by simp [List.get?] at h
  | x :: xs, 0, e, h => by
    simp only [List.get?, Option.some.injEq] at h
    subst h
    rfl
  | x :: xs, n + 1, e, h => by
    simp only [List.get?] at h
    simpa [List.drop] using drop_cons_of_get? xs n e h

theorem iterTrace_add (fmtFloat : Nat → String) (a b : Nat) : ∀ (o : Obj),
    iterTrace fmtFloat (a + b) o
      = ((iterTrace fmtFloat a o).1 ++ (iterTrace fmtFloat b (iterTrace fmtFloat a o).2).1,
         (iterTrace fmtFloat b (iterTrace fmtFloat a o).2).2) := by
  induction a with
  | zero =>
    intro o
    simp [iterTrace, Nat.zero_add]
  | succ a ih =>
    intro o
    have hadd : a + 1 + b = (a + b) + 1 := by omega
    rw [hadd]
    simp only [iterTrace]
    rw [ih ((Obj.next fmtFloat o).2)]
    simp

theorem dict_trace_pass (fmtFloat : Nat → String) (pairs : List (HashKey × Obj × Obj))
    (hnd : (pairs.map (renderKey fmtFloat)).Nodup) :
    ∀ (d off : Nat), off + d = pairs.length →
      iterTrace fmtFloat d (.dict pairs off)
        = (((sortPairs fmtFloat pairs).drop off).map (fun e => (some e.2.1, some e.2.2)),
           .dict pairs pairs.length) := by
  intro d
  induction d with
  | zero =>
    intro off h
    have hoff : off = pairs.length := by omega
    have hdrop : (sortPairs fmtFloat pairs).drop off = [] := by
      apply List.drop_eq_nil_of_le
      rw [sortPairs_length]
      omega
    rw [hoff] at hdrop ⊢
    simp [iterTrace, hdrop]
  | succ d ih =>
    intro off h
    have hlt : off < (sortPairs fmtFloat pairs).length := by
      rw [sortPairs_length]
      omega
    have hget : (sortPairs fmtFloat pairs).get? off = some ((sortPairs fmtFloat pairs).get ⟨off, hlt⟩) :=
      List.get?_eq_get hlt
    have hstep := dict_next_of_get fmtFloat pairs off _ hnd hget
    have hdrop := drop_cons_of_get? _ _ _ hget
    simp only [iterTrace, hstep]
    rw [ih (off + 1) (by omega), hdrop, List.map_cons]

theorem dict_trace_exhausted (fmtFloat : Nat → String) (pairs : List (HashKey × Obj × Obj)) :
    ∀ (m off : Nat), pairs.length ≤ off →
      iterTrace fmtFloat m (.dict pairs off)
        = (List.replicate m ((none : Option Obj), (none : Option Obj)), .dict pairs off) := by
  intro m
  induction m with
  | zero => intro off h; rfl
  | succ m ih =>
    intro off h
    simp only [iterTrace, dict_next_exhausted fmtFloat pairs off h]
    rw [ih off h]
    rfl

/-- C1 (amended): for every Dict whose stored keys' rendered texts are
pairwise distinct, a full iteration pass of n+1 `Next()` calls after
`Reset()` yields the n stored (key, value) pairs — each exactly once, the
yielded sequence being the stored pairs sorted by rendered key — in
strictly ascending lexicographic order of the keys' rendered text, and
then yields (absent, absent). -/
theorem dict_iteration_pass (fmtFloat : Nat → String) (pairs : List (HashKey × Obj × Obj))
    (hnd : (pairs.map (renderKey fmtFloat)).Nodup) :
    (iterTrace fmtFloat (pairs.length + 1) (.dict pairs 0)).1
      = (sortPairs fmtFloat pairs).map (fun e => (some e.2.1, some e.2.2))
        ++ [((none : Option Obj), (none : Option Obj))]
    ∧ (sortPairs fmtFloat pairs).Perm pairs
    ∧ ((sortPairs fmtFloat pairs).map (renderKey fmtFloat)).Pairwise
        (fun a b => strLtB a b = true) := by
  refine ⟨?_, sortBy_perm _ pairs, ?_⟩
  · rw [iterTrace_add fmtFloat pairs.length 1 (.dict pairs 0),
        dict_trace_pass fmtFloat pairs hnd pairs.length 0 (by omega)]
    rw [dict_trace_exhausted fmtFloat pairs 1 pairs.length (le_refl _)]
    simp
  · have hpw := sortBy_pairwise
      (fun p q => strLtB (renderKey fmtFloat p) (renderKey fmtFloat q))
      (fun a b c hab hbc => strLtB_trans hab hbc)
      (fun a => strLtB_irrefl _) pairs
    have hnd2 : ((sortPairs fmtFloat pairs).map (renderKey fmtFloat)).Nodup :=
      (((sortBy_perm _ pairs).map (renderKey fmtFloat)).symm).nodup hnd
    have hnd3 : (sortPairs fmtFloat pairs).Pairwise
        (fun p q => renderKey fmtFloat p ≠ renderKey fmtFloat q) :=
      List.pairwise_map.mp hnd2
    refine List.pairwise_map.mpr ?_
    refine (hpw.and hnd3).imp ?_
    intro p q hpq
    obtain ⟨h1, h2⟩ := hpq
    cases hc : strLtB (renderKey fmtFloat p) (renderKey fmtFloat q) with
    | true => rfl
    | false => exact absurd (strLtB_conn hc h1) h2

theorem dict_iteration_pass_witness :
    ([(stringHashKey "b", Obj.str "b" 0, Obj.integer 2),
      (stringHashKey "a", Obj.str "a" 0, Obj.integer 1)].map
        (renderKey (fun _ => ""))).Nodup
    ∧ ((iterTrace (fun _ => "") (2 + 1)
          (.dict [(stringHashKey "b", Obj.str "b" 0, Obj.integer 2),
                  (stringHashKey "a", Obj.str "a" 0, Obj.integer 1)] 0)).1
        = (sortPairs (fun _ => "")
            [(stringHashKey "b", Obj.str "b" 0, Obj.integer 2),
             (stringHashKey "a", Obj.str "a" 0, Obj.integer 1)]).map
              (fun e => (some e.2.1, some e.2.2))
          ++ [((none : Option Obj), (none : Option Obj))]
       ∧ (sortPairs (fun _ => "")
            [(stringHashKey "b", Obj.str "b" 0, Obj.integer 2),
             (stringHashKey "a", Obj.str "a" 0, Obj.integer 1)]).Perm
           [(stringHashKey "b", Obj.str "b" 0, Obj.integer 2),
            (stringHashKey "a", Obj.str "a" 0, Obj.integer 1)]
       ∧ ((sortPairs (fun _ => "")
            [(stringHashKey "b", Obj.str "b" 0, Obj.integer 2),
             (stringHashKey "a", Obj.str "a" 0, Obj.integer 1)]).map
              (renderKey (fun _ => ""))).Pairwise (fun a b => strLtB a b = true)) :=
  ⟨by decide,
   dict_iteration_pass (fun _ => "")
     [(stringHashKey "b", Obj.str "b" 0, Obj.integer 2),
      (stringHashKey "a", Obj.str "a" 0, Obj.integer 1)] (by decide)⟩

/-- The Dict `{1: "a", 1.0: "b"}` — an Integer key and a Float key that
both render as `"1"` (Go renders the `float64` `1.0` as `"1"`), stored
under their distinct HashKeys. -/
def pairsCollide : List (HashKey × Obj × Obj) :=
  [(integerHashKey 1, .integer 1, .str "a" 0),
   (floatHashKey fmtFloatC float1Bits, .float float1Bits, .str "b" 0)]

/-- C1 counterexample: on the two-pair Dict `pairsCollide` — whose keys
render to the same text `"1"` — a full iteration pass after `Reset()`
yields the Float pair twice and the Integer pair not at all, refuting
"each of the n stored (key, value) pairs exactly once". -/
theorem dict_iteration_counterexample :
    (iterTrace fmtFloatC 3 (.dict pairsCollide 0)).1
      = [(some (.float float1Bits), some (.str "b" 0)),
         (some (.float float1Bits), some (.str "b" 0)),
         ((none : Option Obj), (none : Option Obj))]
    ∧ ((some (Obj.integer 1), some (Obj.str "a" 0))
        ∈ (iterTrace fmtFloatC 3 (.dict pairsCollide 0)).1 → False) := by
  have htr : (iterTrace fmtFloatC 3 (.dict pairsCollide 0)).1
      = [(some (.float float1Bits), some (.str "b" 0)),
         (some (.float float1Bits), some (.str "b" 0)),
         ((none : Option Obj), (none : Option Obj))] := by rfl
  refine ⟨htr, ?_⟩
  rw [htr]
  intro h
  simp [float1Bits] at h

theorem str_next_mid (fmtFloat : Nat → String) (v : String) (off : Nat)
    (h : off < (strBytes v).length) :
    Obj.next fmtFloat (.str v off)
      = ((some (.integer off),
          some (.str (String.singleton (Char.ofNat ((strBytes v).getD off 0))) 0)),
         .str v (off + 1)) := by
  simp [Obj.next, h]

theorem str_next_exhausted (fmtFloat : Nat → String) (v : String) (off : Nat)
    (h : (strBytes v).length ≤ off) :
    Obj.next fmtFloat (.str v off) = ((none, none), .str v off) := by
  simp [Obj.next, Nat.not_lt.mpr h]

theorem str_trace_pass (fmtFloat : Nat → String) (v : String) :
    ∀ (d off : Nat), off + d = (strBytes v).length →
      iterTrace fmtFloat d (.str v off)
        = ((List.range' off d).map
             (fun (i : Nat) => (some (Obj.integer i),
                        some (Obj.str (String.singleton (Char.ofNat ((strBytes v).getD i 0))) 0))),
           .str v ((strBytes v).length)) := by
  intro d
  induction d with
  | zero =>
    intro off h
    have hoff : off = (strBytes v).length := by omega
    rw [hoff]
    rfl
  | succ d ih =>
    intro off h
    have hlt : off < (strBytes v).length := by omega
    simp only [iterTrace, str_next_mid fmtFloat v off hlt]
    rw [ih (off + 1) (by omega)]
    simp [List.range']

theorem str_trace_exhausted (fmtFloat : Nat → String) (v : String) :
    ∀ (m off : Nat), (strBytes v).length ≤ off →
      iterTrace fmtFloat m (.str v off)
        = (List.replicate m ((none : Option Obj), (none : Option Obj)), .str v off) := by
  intro m
  induction m with
  | zero => intro off h; rfl
  | succ m ih =>
    intro off h
    simp only [iterTrace, str_next_exhausted fmtFloat v off h]
    rw [ih off h]
    rfl

/-- C5: after `Reset()`, iterating a String of n bytes yields exactly the
n pairs (byte offset, one-character String of that byte) with offsets
0, 1, …, n-1 in strictly increasing order, then (absent, absent) on every
subsequent `Next()` call — however many more are made — and the final
state differs from the initial one only in the cursor, which `Reset()`
returns to 0. -/
theorem string_iteration (fmtFloat : Nat → String) (v : String) (m : Nat) :
    (iterTrace fmtFloat ((strBytes v).length + (m + 1)) (.str v 0)).1
      = (List.range ((strBytes v).length)).map
          (fun (i : Nat) => (some (Obj.integer i),
                     some (Obj.str (String.singleton (Char.ofNat ((strBytes v).getD i 0))) 0)))
        ++ List.replicate (m + 1) ((none : Option Obj), (none : Option Obj))
    ∧ (iterTrace fmtFloat ((strBytes v).length + (m + 1)) (.str v 0)).2
        = .str v ((strBytes v).length)
    ∧ Obj.reset ((iterTrace fmtFloat ((strBytes v).length + (m + 1)) (.str v 0)).2)
        = .str v 0 := by
  have h1 := iterTrace_add fmtFloat ((strBytes v).length) (m + 1) (.str v 0)
  have h2 := str_trace_pass fmtFloat v ((strBytes v).length) 0 (by omega)
  have h3 := str_trace_exhausted fmtFloat v (m + 1) ((strBytes v).length) (le_refl _)
  rw [h1, h2]
  simp [h3, List.range_eq_range', Obj.reset]

theorem next_str_payload (fmtFloat : Nat → String) (v : String) (off : Nat) :
    ∃ k, (Obj.next fmtFloat (.str v off)).2 = .str v k := by
  by_cases h : off < (strBytes v).length
  · exact ⟨off + 1, by simp [Obj.next, h]⟩
  · exact ⟨off, by simp [Obj.next, h]⟩

theorem next_array_payload (fmtFloat : Nat → String) (elems : List Obj) (off : Nat) :
    ∃ k, (Obj.next fmtFloat (.array elems off)).2 = .array elems k := by
  by_cases h : off < elems.length
  · exact ⟨off + 1, by simp [Obj.next, h]⟩
  · exact ⟨off, by simp [Obj.next, h]⟩

theorem next_dict_payload (fmtFloat : Nat → String) (pairs : List (HashKey × Obj × Obj))
    (off : Nat) : ∃ k, (Obj.next fmtFloat (.dict pairs off)).2 = .dict pairs k :=
  ⟨(dictNext fmtFloat pairs off).2, rfl⟩

theorem runOps_str (fmtFloat : Nat → String) (ops : List IterOp) :
    ∀ (v : String) (off : Nat), ∃ k, runOps fmtFloat ops (.str v off) = .str v k := by
  induction ops with
  | nil => intro v off; exact ⟨off, rfl⟩
  | cons op rest ih =>
    intro v off
    cases op with
    | nextOp =>
      obtain ⟨k, hk⟩ := next_str_payload fmtFloat v off
      obtain ⟨k2, hk2⟩ := ih v k
      exact ⟨k2, by simp only [runOps, hk, hk2]⟩
    | resetOp =>
      obtain ⟨k2, hk2⟩ := ih v 0
      exact ⟨k2, by simp only [runOps, Obj.reset, hk2]⟩

theorem runOps_array (fmtFloat : Nat → String) (ops : List IterOp) :
    ∀ (elems : List Obj) (off : Nat), ∃ k, runOps fmtFloat ops (.array elems off) = .array elems k := by
  induction ops with
  | nil => intro elems off; exact ⟨off, rfl⟩
  | cons op rest ih =>
    intro elems off
    cases op with
    | nextOp =>
      obtain ⟨k, hk⟩ := next_array_payload fmtFloat elems off
      obtain ⟨k2, hk2⟩ := ih elems k
      exact ⟨k2, by simp only [runOps, hk, hk2]⟩
    | resetOp =>
      obtain ⟨k2, hk2⟩ := ih elems 0
      exact ⟨k2, by simp only [runOps, Obj.reset, hk2]⟩

theorem runOps_dict (fmtFloat : Nat → String) (ops : List IterOp) :
    ∀ (pairs : List (HashKey × Obj × Obj)) (off : Nat),
      ∃ k, runOps fmtFloat ops (.dict pairs off) = .dict pairs k := by
  induction ops with
  | nil => intro pairs off; exact ⟨off, rfl⟩
  | cons op rest ih =>
    intro pairs off
    cases op with
    | nextOp =>
      obtain ⟨k, hk⟩ := next_dict_payload fmtFloat pairs off
      obtain ⟨k2, hk2⟩ := ih pairs k
      exact ⟨k2, by simp only [runOps, hk, hk2]⟩
    | resetOp =>
      obtain ⟨k2, hk2⟩ := ih pairs 0
      exact ⟨k2, by simp only [runOps, Obj.reset, hk2]⟩

theorem array_next_exhausted (fmtFloat : Nat → String) (elems : List Obj) (off : Nat)
    (h : elems.length ≤ off) :
    Obj.next fmtFloat (.array elems off) = ((none, none), .array elems off) := by
  simp [Obj.next, Nat.not_lt.mpr h]

/-- C10: any sequence of `Next()`/`Reset()` calls leaves the stored
payload of a String, Array or Dict unchanged — only the cursor moves —
and an exhausted `Next()` call (one that returns (absent, absent))
leaves even the cursor unchanged. -/
theorem iteration_frame (fmtFloat : Nat → String) :
    (∀ (ops : List IterOp) (v : String) (off : Nat),
       ∃ k, runOps fmtFloat ops (.str v off) = .str v k)
    ∧ (∀ (ops : List IterOp) (elems : List Obj) (off : Nat),
       ∃ k, runOps fmtFloat ops (.array elems off) = .array elems k)
    ∧ (∀ (ops : List IterOp) (pairs : List (HashKey × Obj × Obj)) (off : Nat),
       ∃ k, runOps fmtFloat ops (.dict pairs off) = .dict pairs k)
    ∧ (∀ (v : String) (off : Nat), (strBytes v).length ≤ off →
       Obj.next fmtFloat (.str v off) = ((none, none), .str v off))
    ∧ (∀ (elems : List Obj) (off : Nat), elems.length ≤ off →
       Obj.next fmtFloat (.array elems off) = ((none, none), .array elems off))
    ∧ (∀ (pairs : List (HashKey × Obj × Obj)) (off : Nat), pairs.length ≤ off →
       Obj.next fmtFloat (.dict pairs off) = ((none, none), .dict pairs off)) :=
  ⟨fun ops v off => runOps_str fmtFloat ops v off,
   fun ops elems off => runOps_array fmtFloat ops elems off,
   fun ops pairs off => runOps_dict fmtFloat ops pairs off,
   fun v off h => str_next_exhausted fmtFloat v off h,
   fun elems off h => array_next_exhausted fmtFloat elems off h,
   fun pairs off h => dict_next_exhausted fmtFloat pairs off h⟩

theorem iteration_frame_witness :
    Obj.next (fun _ => "") (.str "ab" 2) = ((none, none), .str "ab" 2)
    ∧ Obj.next (fun _ => "") (.array [.null] 1) = ((none, none), .array [.null] 1)
    ∧ Obj.next (fun _ => "") (.dict [] 0) = ((none, none), .dict [] 0) :=
  ⟨(iteration_frame (fun _ => "")).2.2.2.1 "ab" 2 (by decide),
   (iteration_frame (fun _ => "")).2.2.2.2.1 [.null] 1 (by decide),
   (iteration_frame (fun _ => "")).2.2.2.2.2 [] 0 (by decide)⟩
